import Mathlib

/-!
Shallow embedding of the chess move-legality engine of `src/main.py`.

Modelling conventions:
- Python ints are `ℤ`; board coordinates are pairs `ℤ × ℤ` (row, column).
- Python list indexing `l[i]` wraps negative indices `-len l ≤ i < 0` to
  `i + len l` and raises IndexError outside `-len l ≤ i < len l`; fallible
  computations therefore live in `Except PyErr`.
- The slope is a Python float in the source.  Its only uses are the exact
  comparisons `slope == 0`, `slope == float(inf)` and `abs(slope) == 1`.
  For row/column deltas in the board range (magnitude at most 7, and in
  general far below 2 to the 52) IEEE double division is exact with respect
  to those three comparisons, so the slope is embedded as the exact value:
  the constructor `Slope.inf` is the `float(inf)` sentinel returned for a
  zero column delta, and `Slope.val q` carries the exact rational quotient.
- The pawn validator of the source reads the identifier `piece` at line 133,
  which is not bound in the scope of `_is_valid_pawn_move`; reaching that
  line raises a Python NameError, embedded as `PyErr.nameError`.
- `make_move` mutates the moved piece object after placing it; in value
  semantics this is: write the piece with `has_moved := true` to the end
  cell first, then clear the start cell (the same order as the two
  assignments in the source, which also agrees with the source when start
  and end alias the same cell).
- The `while` loop of `is_path_clear` is embedded with explicit fuel;
  `none` means the fuel ran out with the loop still running.
-/

/-- Runtime failures the Python engine can raise: list index out of range,
an unbound identifier, and attribute access on `None`. -/
inductive PyErr where
  | indexError : PyErr
  | nameError : PyErr
  | attributeError : PyErr
deriving DecidableEq, Repr

/-- The six chess piece kinds of `PieceType` in `src/main.py`. -/
inductive PieceType where
  | pawn
  | knight
  | bishop
  | rook
  | queen
  | king
deriving DecidableEq, Repr

/-- The two colors of `Color` in `src/main.py`. -/
inductive Color where
  | white
  | black
deriving DecidableEq, Repr

/-- The `Piece` dataclass: kind, color, and the has-moved flag. -/
structure Piece where
  piece_type : PieceType
  color : Color
  has_moved : Bool := false
deriving DecidableEq, Repr

/-- The `ChessBoard` state: the 8 by 8 grid of optional pieces (a list of
row lists, as in the source) and the current turn. -/
structure ChessBoard where
  board : List (List (Option Piece))
  current_turn : Color
deriving DecidableEq, Repr

instance {ε α : Type} [DecidableEq ε] [DecidableEq α] : DecidableEq (Except ε α)
  | .error e, .error f =>
    if h : e = f then .isTrue (by rw [h]) else .isFalse (fun hc => by cases hc; exact h rfl)
  | .error _, .ok _ => .isFalse (fun hc => by cases hc)
  | .ok _, .error _ => .isFalse (fun hc => by cases hc)
  | .ok a, .ok b =>
    if h : a = b then .isTrue (by rw [h]) else .isFalse (fun hc => by cases hc; exact h rfl)

/-- Python list read `l[i]`: wraps a negative index by the list length,
raises IndexError when the index is out of range either way. -/
def pyGet {α : Type} (l : List α) (i : ℤ) : Except PyErr α :=
  if h : 0 ≤ i ∧ i < l.length then
    .ok (l.get ⟨i.toNat, by omega⟩)
  else if h2 : -(l.length : ℤ) ≤ i ∧ i < 0 then
    .ok (l.get ⟨(i + l.length).toNat, by omega⟩)
  else
    .error .indexError

/-- Python list write `l[i] = a`, with the same index semantics as `pyGet`. -/
def pySet {α : Type} (l : List α) (i : ℤ) (a : α) : Except PyErr (List α) :=
  if 0 ≤ i ∧ i < l.length then
    .ok (l.set i.toNat a)
  else if -(l.length : ℤ) ≤ i ∧ i < 0 then
    .ok (l.set (i + l.length).toNat a)
  else
    .error .indexError

/-- The read `self.board[row][col]` of the source. -/
def getCell (b : ChessBoard) (row col : ℤ) : Except PyErr (Option Piece) :=
  match pyGet b.board row with
  | .error e => .error e
  | .ok r => pyGet r col

/-- The write `self.board[row][col] = v` of the source (reads the row list,
updates it, and puts it back, which is what mutating the row in place does). -/
def setCell (b : ChessBoard) (row col : ℤ) (v : Option Piece) :
    Except PyErr ChessBoard :=
  match pyGet b.board row with
  | .error e => .error e
  | .ok r =>
    match pySet r col v with
    | .error e => .error e
    | .ok r2 =>
      match pySet b.board row r2 with
      | .error e => .error e
      | .ok rows => .ok { b with board := rows }

/-- The value of `calculate_slope`: the `float(inf)` sentinel for a zero
column delta, otherwise the exact quotient of the deltas. -/
inductive Slope where
  | inf : Slope
  | val : ℚ → Slope
deriving DecidableEq

/-- `calculate_slope` of `src/main.py` lines 45 to 54. -/
def calculate_slope (start_pos end_pos : ℤ × ℤ) : Slope :=
  if end_pos.2 - start_pos.2 = 0 then
    .inf
  else
    .val (((end_pos.1 - start_pos.1 : ℤ) : ℚ) / ((end_pos.2 - start_pos.2 : ℤ) : ℚ))

/-- `calculate_distance` of `src/main.py` lines 56 to 60: the Chebyshev
distance (the comment of the source says manhattan, the formula is the max). -/
def calculate_distance (start_pos end_pos : ℤ × ℤ) : ℤ :=
  max |end_pos.1 - start_pos.1| |end_pos.2 - start_pos.2|

/-- `_is_valid_bishop_move`: `abs(slope) == 1`.  Note `abs(float(inf))` is
`float(inf)`, which never equals 1, so the sentinel yields false. -/
def _is_valid_bishop_move (slope : Slope) : Bool :=
  match slope with
  | .inf => false
  | .val q => decide (|q| = 1)

/-- `_is_valid_rook_move`: `slope == 0 or slope == float(inf)`. -/
def _is_valid_rook_move (slope : Slope) : Bool :=
  match slope with
  | .inf => true
  | .val q => decide (q = 0)

/-- `_is_valid_queen_move`: `slope == 0 or slope == float(inf) or abs(slope) == 1`. -/
def _is_valid_queen_move (slope : Slope) : Bool :=
  match slope with
  | .inf => true
  | .val q => decide (q = 0) || decide (|q| = 1)

/-- `_is_valid_king_move`: queen geometry and `distance == 1`. -/
def _is_valid_king_move (slope : Slope) (distance : ℤ) : Bool :=
  (match slope with
   | .inf => true
   | .val q => decide (q = 0) || decide (|q| = 1)) && decide (distance = 1)

/-- `_is_valid_knight_move`: `sorted([row_diff, col_diff]) == [1, 2]`. -/
def _is_valid_knight_move (start_pos end_pos : ℤ × ℤ) : Bool :=
  let row_diff := |end_pos.1 - start_pos.1|
  let col_diff := |end_pos.2 - start_pos.2|
  decide ((if row_diff ≤ col_diff then [row_diff, col_diff]
           else [col_diff, row_diff]) = [1, 2])

/-- The pawn advance direction of line 126: 1 for black, -1 for white. -/
def pawn_direction (color : Color) : ℤ :=
  if color = Color.black then 1 else -1

/-- `_is_valid_pawn_move` of `src/main.py` lines 120 to 143.  In the same
column branch, when the single step test of line 130 fails, line 133
evaluates `not piece.has_moved` with `piece` unbound in this scope, so the
function raises NameError before the double step geometry is even tested. -/
def _is_valid_pawn_move (b : ChessBoard) (start_pos end_pos : ℤ × ℤ)
    (color : Color) : Except PyErr Bool :=
  let direction := pawn_direction color
  if start_pos.2 = end_pos.2 then
    if end_pos.1 - start_pos.1 = direction then
      match getCell b end_pos.1 end_pos.2 with
      | .error e => .error e
      | .ok t => .ok t.isNone
    else
      .error .nameError
  else if |end_pos.2 - start_pos.2| = 1 ∧ end_pos.1 - start_pos.1 = direction then
    match getCell b end_pos.1 end_pos.2 with
    | .error e => .error e
    | .ok t => .ok t.isSome
  else
    .ok false

/-- `_is_within_bounds`: `0 <= row < 8 and 0 <= col < 8`. -/
def _is_within_bounds (pos : ℤ × ℤ) : Bool :=
  decide (0 ≤ pos.1 ∧ pos.1 < 8 ∧ 0 ≤ pos.2 ∧ pos.2 < 8)

/-- The same-color test of line 75: `board[er][ec] and board[er][ec].color == piece.color`. -/
def same_color_block (target : Option Piece) (piece : Piece) : Bool :=
  match target with
  | some q => decide (q.color = piece.color)
  | none => false

/-- `is_valid_move` of `src/main.py` lines 62 to 94.  Only the end position
is bounds checked; the start position is read with raw Python indexing. -/
def is_valid_move (b : ChessBoard) (start_pos end_pos : ℤ × ℤ) :
    Except PyErr Bool :=
  if ¬ _is_within_bounds end_pos then .ok false
  else
    match getCell b start_pos.1 start_pos.2 with
    | .error e => .error e
    | .ok none => .ok false
    | .ok (some piece) =>
      match getCell b end_pos.1 end_pos.2 with
      | .error e => .error e
      | .ok target =>
        if same_color_block target piece then .ok false
        else
          let slope := calculate_slope start_pos end_pos
          let distance := calculate_distance start_pos end_pos
          match piece.piece_type with
          | .bishop => .ok (_is_valid_bishop_move slope)
          | .rook => .ok (_is_valid_rook_move slope)
          | .queen => .ok (_is_valid_queen_move slope)
          | .knight => .ok (_is_valid_knight_move start_pos end_pos)
          | .king => .ok (_is_valid_king_move slope distance)
          | .pawn => _is_valid_pawn_move b start_pos end_pos piece.color

/-- `make_move` of `src/main.py` lines 156 to 172.  On success the source
writes the piece to the end cell, clears the start cell, then mutates the
moved piece object setting `has_moved = True`; since that object then sits
in the end cell, this equals writing the flagged piece to the end cell
before clearing the start cell.  The `piece.has_moved = True` line would be
attribute access on `None` if the start cell were empty (unreachable after
a valid move). -/
def make_move (b : ChessBoard) (start_pos end_pos : ℤ × ℤ) :
    Except PyErr (Bool × ChessBoard) :=
  match is_valid_move b start_pos end_pos with
  | .error e => .error e
  | .ok false => .ok (false, b)
  | .ok true =>
    match getCell b start_pos.1 start_pos.2 with
    | .error e => .error e
    | .ok none => .error .attributeError
    | .ok (some piece) =>
      match setCell b end_pos.1 end_pos.2 (some { piece with has_moved := true }) with
      | .error e => .error e
      | .ok b1 =>
        match setCell b1 start_pos.1 start_pos.2 none with
        | .error e => .error e
        | .ok b2 =>
          .ok (true, { b2 with current_turn :=
            if b2.current_turn = Color.white then Color.black else Color.white })

/-- The loop body of `is_path_clear` lines 185 to 189, with explicit fuel:
`none` means the fuel ran out with the loop still running. -/
def path_loop (b : ChessBoard) (end_pos : ℤ × ℤ) (row_step col_step : ℤ) :
    Nat → ℤ × ℤ → Option (Except PyErr Bool)
  | 0, _ => none
  | fuel + 1, current =>
    if current = end_pos then some (.ok true)
    else
      match getCell b current.1 current.2 with
      | .error e => some (.error e)
      | .ok (some _) => some (.ok false)
      | .ok none =>
        path_loop b end_pos row_step col_step fuel
          (current.1 + row_step, current.2 + col_step)

/-- `is_path_clear` of `src/main.py` lines 174 to 191.  The step
`0 if sr == er else (er - sr) // abs(er - sr)` is exactly `Int.sign (er - sr)`
(floor division of a nonzero integer by its absolute value is its sign). -/
def is_path_clear (b : ChessBoard) (start_pos end_pos : ℤ × ℤ) (fuel : Nat) :
    Option (Except PyErr Bool) :=
  let row_step := Int.sign (end_pos.1 - start_pos.1)
  let col_step := Int.sign (end_pos.2 - start_pos.2)
  path_loop b end_pos row_step col_step fuel
    (start_pos.1 + row_step, start_pos.2 + col_step)

/-- The back-rank piece order of `_initialize` in the source. -/
def piece_order : List PieceType :=
  [.rook, .knight, .bishop, .queen, .king, .bishop, .knight, .rook]

/-- One empty board row. -/
def empty_row : List (Option Piece) := List.replicate 8 none

/-- A rank of eight fresh pawns of one color. -/
def pawn_row (c : Color) : List (Option Piece) :=
  List.replicate 8 (some { piece_type := .pawn, color := c, has_moved := false })

/-- A back rank of one color in the fixed `piece_order`. -/
def back_row (c : Color) : List (Option Piece) :=
  piece_order.map (fun t => some { piece_type := t, color := c, has_moved := false })

/-- The freshly constructed board of `ChessBoard.__init__`: white back rank
on row 0, white pawns on row 1, black pawns on row 6, black back rank on
row 7, and `current_turn` white. -/
def initial_board : ChessBoard :=
  { board := [back_row .white, pawn_row .white, empty_row, empty_row,
              empty_row, empty_row, pawn_row .black, back_row .black],
    current_turn := .white }

/-- Wellformedness of a board state: the grid is 8 rows of 8 cells. -/
def WF (b : ChessBoard) : Prop :=
  b.board.length = 8 ∧ ∀ row ∈ b.board, row.length = 8

instance (b : ChessBoard) : Decidable (WF b) := by
  unfold WF
  exact instDecidableAnd

/-- Runs a list of moves with `make_move`, keeping only runs in which every
call returns true (and none raises): `none` otherwise. -/
def run_moves : ChessBoard → List ((ℤ × ℤ) × (ℤ × ℤ)) → Option ChessBoard
  | b, [] => some b
  | b, m :: ms =>
    match make_move b m.1 m.2 with
    | .ok (true, b2) => run_moves b2 ms
    | _ => none

/-- Modelled from the spec: the exact-integer bishop legality the spec
proposes as a refinement of the floating-point test, comparing the absolute
deltas with both nonzero. -/
def bishop_move_exact (start_pos end_pos : ℤ × ℤ) : Bool :=
  decide (|end_pos.1 - start_pos.1| = |end_pos.2 - start_pos.2| ∧
          end_pos.1 - start_pos.1 ≠ 0 ∧ end_pos.2 - start_pos.2 ≠ 0)

/-- Board used for pawn claims: a single fresh white pawn at (4,3) on an
otherwise empty board. -/
def pawn_board : ChessBoard :=
  { board := [empty_row, empty_row, empty_row, empty_row,
              empty_row.set 3 (some { piece_type := .pawn, color := .white, has_moved := false }),
              empty_row, empty_row, empty_row],
    current_turn := .white }

/-- Board used for the king claim: a single white king at (4,4). -/
def king_board : ChessBoard :=
  { board := [empty_row, empty_row, empty_row, empty_row,
              empty_row.set 4 (some { piece_type := .king, color := .white, has_moved := false }),
              empty_row, empty_row, empty_row],
    current_turn := .white }

/-- Board used for the wraparound demonstration: a single white rook at (5,3). -/
def wrap_board : ChessBoard :=
  { board := [empty_row, empty_row, empty_row, empty_row, empty_row,
              empty_row.set 3 (some { piece_type := .rook, color := .white, has_moved := false }),
              empty_row, empty_row],
    current_turn := .white }

lemma within_bounds_iff (p : ℤ × ℤ) :
    _is_within_bounds p = true ↔ 0 ≤ p.1 ∧ p.1 < 8 ∧ 0 ≤ p.2 ∧ p.2 < 8 := by
  simp [_is_within_bounds]

lemma pyGet_ok {α : Type} (l : List α) (i : ℤ) (h0 : 0 ≤ i) (h1 : i < l.length) :
    pyGet l i = .ok (l.get ⟨i.toNat, by omega⟩) := by
  unfold pyGet
  rw [dif_pos ⟨h0, h1⟩]

lemma getCell_ok (b : ChessBoard) (hWF : WF b) (r c : ℤ)
    (hr0 : 0 ≤ r) (hr : r < 8) (hc0 : 0 ≤ c) (hc : c < 8) :
    ∃ v, getCell b r c = .ok v := by
  obtain ⟨hlen, hrows⟩ := hWF
  have hrlen : r < (b.board.length : ℤ) := by rw [hlen]; exact_mod_cast hr
  have hrowlen : ∀ h : r.toNat < b.board.length,
      (b.board.get ⟨r.toNat, h⟩).length = 8 :=
    fun h => hrows _ (List.get_mem b.board r.toNat h)
  unfold getCell
  rw [pyGet_ok b.board r hr0 hrlen]
  refine ⟨_, pyGet_ok _ c hc0 ?_⟩
  rw [hrowlen]
  exact_mod_cast hc

lemma same_color_block_false (t : Option Piece) (p : Piece)
    (h : ∀ q : Piece, t = some q → q.color ≠ p.color) :
    same_color_block t p = false := by
  cases t with
  | none => rfl
  | some q => simp [same_color_block]; exact h q rfl

lemma is_valid_move_dispatch (b : ChessBoard) (s e : ℤ × ℤ) (p : Piece)
    (t : Option Piece)
    (he : _is_within_bounds e = true)
    (hs : getCell b s.1 s.2 = .ok (some p))
    (ht : getCell b e.1 e.2 = .ok t)
    (hnc : same_color_block t p = false) :
    is_valid_move b s e =
      (match p.piece_type with
       | .bishop => .ok (_is_valid_bishop_move (calculate_slope s e))
       | .rook => .ok (_is_valid_rook_move (calculate_slope s e))
       | .queen => .ok (_is_valid_queen_move (calculate_slope s e))
       | .knight => .ok (_is_valid_knight_move s e)
       | .king => .ok (_is_valid_king_move (calculate_slope s e) (calculate_distance s e))
       | .pawn => _is_valid_pawn_move b s e p.color) := by
  unfold is_valid_move
  rw [he, hs, ht]
  simp only [hnc]
  cases hpt : p.piece_type <;> simp [hnc]

/-- C1.  Whenever `is_valid_move` answers false, `make_move` answers false
and returns the board unchanged: every cell and `current_turn` as before. -/
theorem make_move_failure_noop (b : ChessBoard) (s e : ℤ × ℤ)
    (h : is_valid_move b s e = .ok false) :
    make_move b s e = .ok (false, b) := by
  unfold make_move
  rw [h]

theorem make_move_failure_noop_witness :
    is_valid_move initial_board (3, 3) (4, 4) = .ok false ∧
    make_move initial_board (3, 3) (4, 4) = .ok (false, initial_board) :=
  ⟨by decide, make_move_failure_noop initial_board (3, 3) (4, 4) (by decide)⟩

/-- The rook geometry asserted by the claim: pure horizontal (zero row
delta, nonzero column delta) or pure vertical (zero column delta, nonzero
row delta). -/
def rook_claim_geometry (start_pos end_pos : ℤ × ℤ) : Prop :=
  (end_pos.1 - start_pos.1 = 0 ∧ end_pos.2 - start_pos.2 ≠ 0) ∨
  (end_pos.2 - start_pos.2 = 0 ∧ end_pos.1 - start_pos.1 ≠ 0)

instance (s e : ℤ × ℤ) : Decidable (rook_claim_geometry s e) := by
  unfold rook_claim_geometry
  infer_instance

/-- C3 counterexample.  At start = end = (3,3) the column delta is zero, so
the slope is the vertical sentinel and the rook predicate answers true, yet
the move is neither pure horizontal nor pure vertical (both deltas zero). -/
theorem rook_pred_counterexample :
    _is_valid_rook_move (calculate_slope (3, 3) (3, 3)) = true ∧
    ¬ rook_claim_geometry (3, 3) (3, 3) := by
  decide

/-- C3 amended.  For in-bounds coordinates the rook predicate answers true
exactly when the move is pure horizontal (zero row delta, nonzero column
delta) or the column delta is zero — the vertical sentinel case, which also
covers the degenerate start = end pair, where the predicate answers true
even though the row delta is zero as well. -/
theorem rook_pred_amended (s e : ℤ × ℤ)
    (hs : _is_within_bounds s = true) (he : _is_within_bounds e = true) :
    _is_valid_rook_move (calculate_slope s e) = true ↔
      ((e.1 - s.1 = 0 ∧ e.2 - s.2 ≠ 0) ∨ e.2 - s.2 = 0) := by
  by_cases hc : e.2 - s.2 = 0
  · simp [calculate_slope, hc, _is_valid_rook_move]
  · have hcq : ((e.2 - s.2 : ℤ) : ℚ) ≠ 0 := Int.cast_ne_zero.mpr hc
    have hval : _is_valid_rook_move (calculate_slope s e) = decide (e.1 - s.1 = 0) := by
      simp only [calculate_slope, if_neg hc, _is_valid_rook_move]
      rw [decide_eq_decide, div_eq_zero_iff, Int.cast_eq_zero, Int.cast_eq_zero]
      simp [hc]
    rw [hval]
    simp [hc]

theorem rook_pred_amended_witness :
    _is_within_bounds ((3 : ℤ), (3 : ℤ)) = true ∧
    _is_within_bounds ((3 : ℤ), (7 : ℤ)) = true ∧
    _is_valid_rook_move (calculate_slope (3, 3) (3, 7)) = true :=
  ⟨by decide, by decide, by
    refine (rook_pred_amended (3, 3) (3, 7) (by decide) (by decide)).mpr ?_
    decide⟩

/-- C4.  On the board coordinate range the floating-point bishop predicate
of the source and the exact-integer reformulation of the spec decide
exactly the same moves.  The range hypotheses delimit the coordinates for
which the rational embedding of the IEEE double slope is exact. -/
theorem bishop_float_int_equiv (s e : ℤ × ℤ)
    (hs1 : 0 ≤ s.1) (hs1b : s.1 ≤ 7) (hs2 : 0 ≤ s.2) (hs2b : s.2 ≤ 7)
    (he1 : 0 ≤ e.1) (he1b : e.1 ≤ 7) (he2 : 0 ≤ e.2) (he2b : e.2 ≤ 7) :
    _is_valid_bishop_move (calculate_slope s e) = bishop_move_exact s e := by
  by_cases hc : e.2 - s.2 = 0
  · simp [calculate_slope, hc, _is_valid_bishop_move, bishop_move_exact]
  · have hcq : ((e.2 - s.2 : ℤ) : ℚ) ≠ 0 := Int.cast_ne_zero.mpr hc
    simp only [calculate_slope, if_neg hc, _is_valid_bishop_move, bishop_move_exact]
    rw [decide_eq_decide]
    rw [abs_div, div_eq_one_iff_eq (abs_ne_zero.mpr hcq)]
    constructor
    · intro h
      have habs : |e.1 - s.1| = |e.2 - s.2| := by exact_mod_cast h
      refine ⟨habs, fun h0 => hc ?_, hc⟩
      rw [h0, abs_zero] at habs
      exact abs_eq_zero.mp habs.symm
    · rintro ⟨habs, -, -⟩
      exact_mod_cast habs

theorem bishop_float_int_equiv_witness :
    _is_valid_bishop_move (calculate_slope ((0 : ℤ), (0 : ℤ)) (3, 3)) =
      bishop_move_exact (0, 0) (3, 3) ∧
    bishop_move_exact ((0 : ℤ), (0 : ℤ)) (3, 3) = true :=
  ⟨bishop_float_int_equiv (0, 0) (3, 3) (by decide) (by decide) (by decide)
      (by decide) (by decide) (by decide) (by decide) (by decide),
    by decide⟩

/-- C6.  The claim describes the intended double advance (legal exactly
when the pawn is unmoved and both squares ahead are empty), but the code
reaches line 133 and reads the unbound identifier `piece`: at the failing
input below (fresh white pawn at (4,3), squares (3,3) and (2,3) empty, so
the claim says the move to (2,3) is legal) the engine raises NameError
instead of validating the move. -/
theorem pawn_double_advance_raises :
    is_valid_move pawn_board (4, 3) (2, 3) = .error .nameError := by
  decide

/-- C7.  Whenever the same-column branch of the pawn predicate is past the
single-step test with double-advance geometry, evaluation reads the unbound
identifier `piece` of line 133 and raises NameError rather than returning a
boolean, so no two-square pawn advance is ever validated. -/
theorem pawn_double_branch_raises (b : ChessBoard) (s e : ℤ × ℤ) (c : Color)
    (hcol : s.2 = e.2)
    (hdouble : e.1 - s.1 = 2 * pawn_direction c)
    (hsingle : e.1 - s.1 ≠ pawn_direction c) :
    _is_valid_pawn_move b s e c = .error .nameError := by
  unfold _is_valid_pawn_move
  simp [hcol, hsingle]

theorem pawn_double_branch_raises_witness :
    ((4 : ℤ), (3 : ℤ)).2 = ((2 : ℤ), (3 : ℤ)).2 ∧
    ((2 : ℤ), (3 : ℤ)).1 - ((4 : ℤ), (3 : ℤ)).1 = 2 * pawn_direction Color.white ∧
    ((2 : ℤ), (3 : ℤ)).1 - ((4 : ℤ), (3 : ℤ)).1 ≠ pawn_direction Color.white ∧
    _is_valid_pawn_move pawn_board (4, 3) (2, 3) Color.white = .error .nameError :=
  ⟨by decide, by decide, by decide,
    pawn_double_branch_raises pawn_board (4, 3) (2, 3) Color.white
      (by decide) (by decide) (by decide)⟩

/-- C2.  For a king at an in-bounds start with an in-bounds end not holding
a same-color piece, `is_valid_move` answers true exactly when the queen
geometry (slope 0, the vertical sentinel, or absolute slope 1) holds and
the Chebyshev distance between start and end is exactly 1. -/
theorem king_move_iff (b : ChessBoard) (s e : ℤ × ℤ) (p : Piece)
    (hWF : WF b)
    (hstart : getCell b s.1 s.2 = .ok (some p))
    (hking : p.piece_type = PieceType.king)
    (hs : _is_within_bounds s = true)
    (he : _is_within_bounds e = true)
    (hnc : ∀ q : Piece, getCell b e.1 e.2 = .ok (some q) → q.color ≠ p.color) :
    is_valid_move b s e = .ok true ↔
      (_is_valid_queen_move (calculate_slope s e) = true ∧
       max |e.1 - s.1| |e.2 - s.2| = 1) := by
  obtain ⟨he1, he2, he3, he4⟩ := (within_bounds_iff e).mp he
  obtain ⟨t, ht⟩ := getCell_ok b hWF e.1 e.2 he1 he2 he3 he4
  have hblock : same_color_block t p = false :=
    same_color_block_false t p (fun q hq => hnc q (by rw [ht, hq]))
  rw [is_valid_move_dispatch b s e p t he hstart ht hblock, hking]
  simp only [_is_valid_king_move, _is_valid_queen_move, calculate_distance]
  cases hsl : calculate_slope s e with
  | inf =>
    simp [Except.ok.injEq, Bool.and_eq_true]
  | val q =>
    simp [Except.ok.injEq, Bool.and_eq_true]

theorem king_move_iff_witness :
    WF king_board ∧
    getCell king_board 4 4 =
      .ok (some { piece_type := .king, color := .white, has_moved := false }) ∧
    is_valid_move king_board (4, 4) (5, 5) = .ok true := by
  refine ⟨by decide, by decide, ?_⟩
  have hnc : ∀ q : Piece, getCell king_board 5 5 = .ok (some q) →
      q.color ≠ Color.white := by
    intro q hq
    have h0 : getCell king_board 5 5 = .ok none := by decide
    rw [h0] at hq
    simp at hq
  have h := king_move_iff king_board (4, 4) (5, 5)
      { piece_type := .king, color := .white, has_moved := false }
      (by decide) (by decide) rfl (by decide) (by decide) hnc
  refine h.mpr ⟨?_, by decide⟩
  have hsl : calculate_slope ((4 : ℤ), (4 : ℤ)) (5, 5) = Slope.val 1 := by
    unfold calculate_slope
    norm_num
  rw [hsl]
  decide

/-- C5.  For a pawn at an in-bounds start with an in-bounds end not holding
a same-color piece: the single straight advance (same column, end row equal
to start row plus direction) is legal exactly when the end square is empty,
and the diagonal step (column delta of absolute value 1, end row equal to
start row plus direction) is legal exactly when the end square is occupied;
so a pawn never moves diagonally into an empty square nor captures straight
ahead. -/
theorem pawn_single_and_capture (b : ChessBoard) (s e : ℤ × ℤ) (p : Piece)
    (hWF : WF b)
    (hstart : getCell b s.1 s.2 = .ok (some p))
    (hpawn : p.piece_type = PieceType.pawn)
    (hs : _is_within_bounds s = true)
    (he : _is_within_bounds e = true)
    (hnc : ∀ q : Piece, getCell b e.1 e.2 = .ok (some q) → q.color ≠ p.color) :
    ((s.2 = e.2 ∧ e.1 = s.1 + pawn_direction p.color) →
      (is_valid_move b s e = .ok true ↔ getCell b e.1 e.2 = .ok none)) ∧
    ((|e.2 - s.2| = 1 ∧ e.1 = s.1 + pawn_direction p.color) →
      (is_valid_move b s e = .ok true ↔
        ∃ q : Piece, getCell b e.1 e.2 = .ok (some q))) := by
  obtain ⟨he1, he2, he3, he4⟩ := (within_bounds_iff e).mp he
  obtain ⟨t, ht⟩ := getCell_ok b hWF e.1 e.2 he1 he2 he3 he4
  have hblock : same_color_block t p = false :=
    same_color_block_false t p (fun q hq => hnc q (by rw [ht, hq]))
  have hmain := is_valid_move_dispatch b s e p t he hstart ht hblock
  rw [hpawn] at hmain
  constructor
  · rintro ⟨hcol, hrow⟩
    rw [hmain]
    unfold _is_valid_pawn_move
    rw [if_pos hcol, if_pos (by omega : e.1 - s.1 = pawn_direction p.color), ht]
    cases t <;> simp
  · rintro ⟨hcol, hrow⟩
    have hne : ¬ s.2 = e.2 := by
      intro hq
      rw [hq] at hcol
      simp at hcol
    rw [hmain]
    unfold _is_valid_pawn_move
    rw [if_neg hne,
      if_pos (⟨hcol, by omega⟩ : |e.2 - s.2| = 1 ∧ e.1 - s.1 = pawn_direction p.color), ht]
    cases t <;> simp

theorem pawn_single_and_capture_witness :
    WF pawn_board ∧
    getCell pawn_board 4 3 =
      .ok (some { piece_type := .pawn, color := .white, has_moved := false }) ∧
    is_valid_move pawn_board (4, 3) (3, 3) = .ok true := by
  refine ⟨by decide, by decide, ?_⟩
  have hnc : ∀ q : Piece, getCell pawn_board 3 3 = .ok (some q) →
      q.color ≠ Color.white := by
    intro q hq
    have h0 : getCell pawn_board 3 3 = .ok none := by decide
    rw [h0] at hq
    simp at hq
  have h := pawn_single_and_capture pawn_board (4, 3) (3, 3)
      { piece_type := .pawn, color := .white, has_moved := false }
      (by decide) (by decide) rfl (by decide) (by decide) hnc
  exact (h.1 ⟨rfl, by decide⟩).mpr (by decide)

lemma setCell_current_turn {b b2 : ChessBoard} {r c : ℤ} {v : Option Piece}
    (h : setCell b r c v = .ok b2) : b2.current_turn = b.current_turn := by
  unfold setCell at h
  split at h
  · exact absurd h (by simp)
  · split at h
    · exact absurd h (by simp)
    · split at h
      · exact absurd h (by simp)
      · simp only [Except.ok.injEq] at h
        rw [← h]

lemma make_move_success_turn {b b2 : ChessBoard} {s e : ℤ × ℤ}
    (h : make_move b s e = .ok (true, b2)) :
    b2.current_turn =
      (if b.current_turn = Color.white then Color.black else Color.white) := by
  unfold make_move at h
  split at h
  · exact absurd h (by simp)
  · exact absurd h (by simp)
  · split at h
    · exact absurd h (by simp)
    · exact absurd h (by simp)
    · split at h
      · exact absurd h (by simp)
      · split at h
        · exact absurd h (by simp)
        · rename_i x3 b1 hset1 x4 bmid hset2
          simp only [Except.ok.injEq, Prod.mk.injEq] at h
          rw [← h.2]
          simp only [setCell_current_turn hset2, setCell_current_turn hset1]

lemma run_moves_turn (ms : List ((ℤ × ℤ) × (ℤ × ℤ))) :
    ∀ b b2 : ChessBoard, run_moves b ms = some b2 →
      b2.current_turn =
        (if ms.length % 2 = 0 then b.current_turn
         else (if b.current_turn = Color.white then Color.black else Color.white)) := by
  induction ms with
  | nil =>
    intro b b2 h
    simp only [run_moves, Option.some.injEq] at h
    subst h
    simp
  | cons m rest ih =>
    intro b b2 h
    unfold run_moves at h
    split at h
    · rename_i bmid hmk
      have hturn := make_move_success_turn hmk
      have hrest := ih bmid b2 h
      rw [hrest, hturn]
      rcases Nat.even_or_odd rest.length with hpar | hpar
      · have h0 : rest.length % 2 = 0 := Nat.even_iff.mp hpar
        have h1 : (m :: rest).length % 2 = 1 := by
          simp [List.length_cons, Nat.add_mod, h0]
        rw [h0, h1]
        cases hbc : b.current_turn <;> simp
      · have h0 : rest.length % 2 = 1 := Nat.odd_iff.mp hpar
        have h1 : (m :: rest).length % 2 = 0 := by
          simp [List.length_cons, Nat.add_mod, h0]
        rw [h0, h1]
        cases hbc : b.current_turn <;> simp
    · exact absurd h (by simp)

/-- C8.  Starting from the freshly constructed board, after any run of
`make_move` calls that all return true, `current_turn` is white when the
number of moves is even and black when it is odd, regardless of which
pieces were moved. -/
theorem turn_alternation (ms : List ((ℤ × ℤ) × (ℤ × ℤ))) (b2 : ChessBoard)
    (h : run_moves initial_board ms = some b2) :
    b2.current_turn = (if ms.length % 2 = 0 then Color.white else Color.black) := by
  have hrun := run_moves_turn ms initial_board b2 h
  rcases Nat.decEq (ms.length % 2) 0 with hpar | hpar
  all_goals simp_all [initial_board]

/-- The board after the successful knight move (0,1) to (2,2) from the
initial position. -/
def after_knight : ChessBoard :=
  { board := [(back_row .white).set 1 none, pawn_row .white,
              empty_row.set 2 (some { piece_type := .knight, color := .white, has_moved := true }),
              empty_row, empty_row, empty_row, pawn_row .black, back_row .black],
    current_turn := .black }

theorem turn_alternation_witness :
    run_moves initial_board [((0, 1), (2, 2))] = some after_knight ∧
    after_knight.current_turn = Color.black := by
  refine ⟨by decide, ?_⟩
  have h := turn_alternation [((0, 1), (2, 2))] after_knight (by decide)
  simpa using h

lemma pyGet_err {α : Type} (l : List α) (i : ℤ)
    (h : i < -(l.length : ℤ) ∨ (l.length : ℤ) ≤ i) :
    pyGet l i = .error .indexError := by
  unfold pyGet
  rw [dif_neg (by omega), dif_neg (by omega)]

lemma pyGet_wrap {α : Type} (l : List α) (i : ℤ)
    (h0 : -(l.length : ℤ) ≤ i) (h1 : i < 0) :
    pyGet l i = pyGet l (i + l.length) := by
  unfold pyGet
  rw [dif_neg (by omega), dif_pos ⟨h0, h1⟩, dif_pos (by omega)]

lemma pyGet_ok_mem {α : Type} (l : List α) (i : ℤ)
    (h0 : -(l.length : ℤ) ≤ i) (h1 : i < l.length) :
    ∃ a, pyGet l i = .ok a ∧ a ∈ l := by
  unfold pyGet
  by_cases hp : 0 ≤ i ∧ i < l.length
  · rw [dif_pos hp]
    exact ⟨_, rfl, List.get_mem _ _ _⟩
  · rw [dif_neg hp, dif_pos ⟨h0, by omega⟩]
    exact ⟨_, rfl, List.get_mem _ _ _⟩

lemma getCell_start_oob (b : ChessBoard) (r c : ℤ) (hWF : WF b)
    (h : 7 < r ∨ 7 < c) : getCell b r c = .error .indexError := by
  have hlen : (b.board.length : ℤ) = 8 := by rw [hWF.1]; norm_num
  by_cases hr : -(8 : ℤ) ≤ r ∧ r < 8
  · have hc : 7 < c := by omega
    obtain ⟨row, hrow, hmem⟩ := pyGet_ok_mem b.board r (by omega) (by omega)
    have hrl : (row.length : ℤ) = 8 := by rw [hWF.2 row hmem]; norm_num
    unfold getCell
    rw [hrow]
    exact pyGet_err row c (Or.inr (by omega))
  · unfold getCell
    rw [pyGet_err b.board r (by omega)]

/-- C10.  `is_valid_move` bounds-checks only the end coordinate.  First
part: with an in-bounds end, a start whose row or column exceeds 7 makes
the engine raise IndexError instead of returning false.  Second and third
parts: a start row (resp. column) in -8..-1 is read by Python wraparound
as index plus 8.  Last part: through that wraparound such a call can
return true, here a rook at (5,3) addressed as (-3,3). -/
theorem start_bounds_gap :
    (∀ (b : ChessBoard) (s e : ℤ × ℤ), WF b → _is_within_bounds e = true →
      7 < s.1 ∨ 7 < s.2 → is_valid_move b s e = .error .indexError) ∧
    (∀ (b : ChessBoard) (i j : ℤ), WF b → -8 ≤ i → i < 0 →
      getCell b i j = getCell b (i + 8) j) ∧
    (∀ (b : ChessBoard) (i j : ℤ), WF b → -8 ≤ j → j < 0 →
      -8 ≤ i → i < 8 → getCell b i j = getCell b i (j + 8)) ∧
    is_valid_move wrap_board (-3, 3) (4, 3) = .ok true := by
  refine ⟨?_, ?_, ?_, by decide⟩
  · intro b s e hWF he hgt
    unfold is_valid_move
    rw [if_neg (by simp [he]), getCell_start_oob b s.1 s.2 hWF hgt]
  · intro b i j hWF h0 h1
    have hlen : (b.board.length : ℤ) = 8 := by rw [hWF.1]; norm_num
    unfold getCell
    rw [pyGet_wrap b.board i (by omega) h1, hlen]
  · intro b i j hWF h0 h1 hi0 hi1
    have hlen : (b.board.length : ℤ) = 8 := by rw [hWF.1]; norm_num
    obtain ⟨row, hrow, hmem⟩ := pyGet_ok_mem b.board i (by omega) (by omega)
    have hrl : (row.length : ℤ) = 8 := by rw [hWF.2 row hmem]; norm_num
    unfold getCell
    rw [hrow]
    show pyGet row j = pyGet row (j + 8)
    rw [pyGet_wrap row j (by omega) h1, hrl]

theorem start_bounds_gap_witness :
    WF initial_board ∧ _is_within_bounds ((3 : ℤ), (3 : ℤ)) = true ∧
    (7 < (9 : ℤ) ∨ 7 < (0 : ℤ)) ∧
    is_valid_move initial_board (9, 0) (3, 3) = .error .indexError :=
  ⟨by decide, by decide, Or.inl (by decide),
    start_bounds_gap.1 initial_board (9, 0) (3, 3) (by decide) (by decide)
      (Or.inl (by decide))⟩

lemma path_loop_spec (b : ChessBoard) (hWF : WF b) (s e : ℤ × ℤ) (rs cs : ℤ) (n : ℕ)
    (hend : e = (s.1 + n * rs, s.2 + n * cs))
    (hinj : ∀ k : ℕ, k < n → (s.1 + k * rs, s.2 + k * cs) ≠ e)
    (hbound : ∀ k : ℕ, k ≤ n →
      0 ≤ s.1 + k * rs ∧ s.1 + k * rs < 8 ∧ 0 ≤ s.2 + k * cs ∧ s.2 + k * cs < 8) :
    ∀ (m k fuel : ℕ), k + m = n → 1 ≤ k → m < fuel →
      ∃ r : Bool,
        path_loop b e rs cs fuel (s.1 + k * rs, s.2 + k * cs) = some (.ok r) ∧
        (r = true ↔ ∀ j : ℕ, k ≤ j → j < n →
          getCell b (s.1 + j * rs) (s.2 + j * cs) = .ok none) := by
  intro m
  induction m with
  | zero =>
    intro k fuel hk hk1 hfuel
    have hkn : k = n := by omega
    obtain ⟨f, rfl⟩ : ∃ f, fuel = f + 1 := ⟨fuel - 1, by omega⟩
    subst hkn
    refine ⟨true, ?_, ?_⟩
    · unfold path_loop
      rw [if_pos (by rw [hend])]
    · constructor
      · intro _ j hj1 hj2
        omega
      · intro _
        rfl
  | succ m ih =>
    intro k fuel hk hk1 hfuel
    have hkn : k < n := by omega
    obtain ⟨f, rfl⟩ : ∃ f, fuel = f + 1 := ⟨fuel - 1, by omega⟩
    have hb := hbound k (by omega)
    obtain ⟨v, hv⟩ := getCell_ok b hWF _ _ hb.1 hb.2.1 hb.2.2.1 hb.2.2.2
    have hnext : ((s.1 + k * rs) + rs, (s.2 + k * cs) + cs) =
        (s.1 + ((k : ℕ) + 1 : ℕ) * rs, s.2 + ((k : ℕ) + 1 : ℕ) * cs) := by
      have h1 : (s.1 + k * rs) + rs = s.1 + ((k : ℕ) + 1 : ℕ) * rs := by push_cast; ring
      have h2 : (s.2 + k * cs) + cs = s.2 + ((k : ℕ) + 1 : ℕ) * cs := by push_cast; ring
      rw [h1, h2]
    cases v with
    | some p =>
      refine ⟨false, ?_, ?_⟩
      · unfold path_loop
        rw [if_neg (hinj k hkn), hv]
      · constructor
        · intro hfalse
          exact absurd hfalse (by simp)
        · intro hall
          exfalso
          have hc := hall k le_rfl hkn
          rw [hv] at hc
          simp at hc
      | none =>
      obtain ⟨r, hr, hiff⟩ := ih (k + 1) f (by omega) (by omega) (by omega)
      refine ⟨r, ?_, ?_⟩
      · unfold path_loop
        rw [if_neg (hinj k hkn), hv]
        show path_loop b e rs cs f ((s.1 + k * rs) + rs, (s.2 + k * cs) + cs) = some (.ok r)
        rw [hnext]
        exact_mod_cast hr
      · rw [hiff]
        constructor
        · intro hall j hjk hjn
          rcases Nat.eq_or_lt_of_le hjk with hj | hj
          · exact hj ▸ hv
          · exact hall j (by omega) hjn
        · intro hall j hjk hjn
          exact hall j (by omega) hjn

/-- Colinearity in the sense of the path check: horizontal, vertical, or
exact diagonal. -/
def Colinear (s e : ℤ × ℤ) : Prop :=
  (e.1 - s.1 = 0 ∧ e.2 - s.2 ≠ 0) ∨ (e.2 - s.2 = 0 ∧ e.1 - s.1 ≠ 0) ∨
  (|e.1 - s.1| = |e.2 - s.2| ∧ e.1 - s.1 ≠ 0)

instance (s e : ℤ × ℤ) : Decidable (Colinear s e) := by
  unfold Colinear
  infer_instance

lemma max_sign_eq (m d : ℤ) (hm : 0 ≤ m) (h : d = 0 ∨ m = |d|) :
    (m.toNat : ℤ) * Int.sign d = d := by
  rcases h with h | h
  · simp [h]
  · rw [Int.toNat_of_nonneg hm, h, mul_comm]
    exact Int.sign_mul_abs d

/-- C9.  For any board and distinct in-bounds colinear start/end squares,
`is_path_clear` terminates (fuel 8 suffices) with a boolean verdict, and
answers true exactly when every square strictly between start and end on
that line is empty. -/
theorem path_clear_iff (b : ChessBoard) (s e : ℤ × ℤ)
    (hWF : WF b) (hs : _is_within_bounds s = true)
    (he : _is_within_bounds e = true) (hne : s ≠ e) (hcol : Colinear s e) :
    ∃ r : Bool, is_path_clear b s e 8 = some (.ok r) ∧
      (r = true ↔ ∀ k : ℕ, 0 < k → (k : ℤ) < calculate_distance s e →
        getCell b (s.1 + k * Int.sign (e.1 - s.1))
                  (s.2 + k * Int.sign (e.2 - s.2)) = .ok none) := by
  obtain ⟨s1, s2⟩ := s
  obtain ⟨e1, e2⟩ := e
  dsimp only at *
  obtain ⟨hs1, hs2, hs3, hs4⟩ := (within_bounds_iff (s1, s2)).mp hs
  obtain ⟨he1, he2, he3, he4⟩ := (within_bounds_iff (e1, e2)).mp he
  dsimp only at hs1 hs2 hs3 hs4 he1 he2 he3 he4
  set rs := Int.sign (e1 - s1) with hrs
  set cs := Int.sign (e2 - s2) with hcs
  have hd0 : 0 ≤ calculate_distance (s1, s2) (e1, e2) :=
    le_trans (abs_nonneg _) (le_max_left _ _)
  set n := (calculate_distance (s1, s2) (e1, e2)).toNat with hn
  have hncast : (n : ℤ) = calculate_distance (s1, s2) (e1, e2) :=
    Int.toNat_of_nonneg hd0
  have hker1 : (n : ℤ) * rs = e1 - s1 := by
    rw [hn, hrs]
    apply max_sign_eq _ _ hd0
    rcases hcol with ⟨h1, h2⟩ | ⟨h1, h2⟩ | ⟨h1, h2⟩
    · exact Or.inl h1
    · refine Or.inr ?_
      unfold calculate_distance
      dsimp only
      rw [h1]
      simp [abs_nonneg]
    · refine Or.inr ?_
      unfold calculate_distance
      dsimp only
      rw [h1]
      simp
  have hker2 : (n : ℤ) * cs = e2 - s2 := by
    rw [hn, hcs]
    apply max_sign_eq _ _ hd0
    rcases hcol with ⟨h1, h2⟩ | ⟨h1, h2⟩ | ⟨h1, h2⟩
    · refine Or.inr ?_
      unfold calculate_distance
      dsimp only
      rw [h1]
      simp [abs_nonneg]
    · exact Or.inl h1
    · refine Or.inr ?_
      unfold calculate_distance
      dsimp only
      rw [h1]
      simp
  have hc1 : s1 + (n : ℤ) * rs = e1 := by rw [hker1]; ring
  have hc2 : s2 + (n : ℤ) * cs = e2 := by rw [hker2]; ring
  have hend : ((e1, e2) : ℤ × ℤ) = (s1 + (n : ℤ) * rs, s2 + (n : ℤ) * cs) := by
    rw [hc1, hc2]
  have hn1 : 1 ≤ n := by
    by_contra hcon
    have hz : (n : ℤ) = 0 := by omega
    have hdz : calculate_distance (s1, s2) (e1, e2) = 0 := by omega
    have h1 : |e1 - s1| ≤ 0 := by
      calc |e1 - s1| ≤ calculate_distance (s1, s2) (e1, e2) := le_max_left _ _
      _ = 0 := hdz
    have h2 : |e2 - s2| ≤ 0 := by
      calc |e2 - s2| ≤ calculate_distance (s1, s2) (e1, e2) := le_max_right _ _
      _ = 0 := hdz
    have hz1 : e1 - s1 = 0 := abs_nonpos_iff.mp h1
    have hz2 : e2 - s2 = 0 := abs_nonpos_iff.mp h2
    apply hne
    rw [Prod.mk.injEq]
    omega
  have hn7 : n ≤ 7 := by
    have h1 : |e1 - s1| ≤ 7 := abs_le.mpr ⟨by omega, by omega⟩
    have h2 : |e2 - s2| ≤ 7 := abs_le.mpr ⟨by omega, by omega⟩
    have : calculate_distance (s1, s2) (e1, e2) ≤ 7 := max_le h1 h2
    omega
  have hinj : ∀ k : ℕ, k < n → ((s1 + k * rs, s2 + k * cs) : ℤ × ℤ) ≠ (e1, e2) := by
    intro k hkn heq
    rw [Prod.mk.injEq] at heq
    have hm1 : (k : ℤ) * rs = (n : ℤ) * rs := by linarith [heq.1, hc1]
    have hm2 : (k : ℤ) * cs = (n : ℤ) * cs := by linarith [heq.2, hc2]
    have hd1 : ((n : ℤ) - k) * rs = 0 := by linarith [hm1]
    have hd2 : ((n : ℤ) - k) * cs = 0 := by linarith [hm2]
    have hnk : ((n : ℤ) - k) ≠ 0 := by
      have : (k : ℤ) < n := by exact_mod_cast hkn
      omega
    have hrs0 : rs = 0 := by
      rcases mul_eq_zero.mp hd1 with h | h
      · exact absurd h hnk
      · exact h
    have hcs0 : cs = 0 := by
      rcases mul_eq_zero.mp hd2 with h | h
      · exact absurd h hnk
      · exact h
    have hz1 : e1 - s1 = 0 := Int.sign_eq_zero_iff_zero.mp (hrs ▸ hrs0)
    have hz2 : e2 - s2 = 0 := Int.sign_eq_zero_iff_zero.mp (hcs ▸ hcs0)
    apply hne
    rw [Prod.mk.injEq]
    omega
  have hrs3 : rs = 1 ∨ rs = 0 ∨ rs = -1 := by
    rcases lt_trichotomy (e1 - s1) 0 with h | h | h
    · exact Or.inr (Or.inr (by rw [hrs]; exact Int.sign_eq_neg_one_iff_neg.mpr h))
    · exact Or.inr (Or.inl (by rw [hrs, h]; rfl))
    · exact Or.inl (by rw [hrs]; exact Int.sign_eq_one_iff_pos.mpr h)
  have hcs3 : cs = 1 ∨ cs = 0 ∨ cs = -1 := by
    rcases lt_trichotomy (e2 - s2) 0 with h | h | h
    · exact Or.inr (Or.inr (by rw [hcs]; exact Int.sign_eq_neg_one_iff_neg.mpr h))
    · exact Or.inr (Or.inl (by rw [hcs, h]; rfl))
    · exact Or.inl (by rw [hcs]; exact Int.sign_eq_one_iff_pos.mpr h)
  have hbound : ∀ k : ℕ, k ≤ n →
      0 ≤ s1 + (k : ℤ) * rs ∧ s1 + (k : ℤ) * rs < 8 ∧
      0 ≤ s2 + (k : ℤ) * cs ∧ s2 + (k : ℤ) * cs < 8 := by
    intro k hk
    have hkz : (k : ℤ) ≤ (n : ℤ) := by exact_mod_cast hk
    rcases hrs3 with hr | hr | hr <;> rcases hcs3 with hc | hc | hc <;>
      rw [hr] at hc1 <;> rw [hc] at hc2 <;>
      refine ⟨?_, ?_, ?_, ?_⟩ <;> simp only [hr, hc] <;> omega
  obtain ⟨r, hr, hiff⟩ :=
    path_loop_spec b hWF (s1, s2) (e1, e2) rs cs n hend hinj hbound
      (n - 1) 1 8 (by omega) le_rfl (by omega)
  refine ⟨r, ?_, ?_⟩
  · unfold is_path_clear
    dsimp only
    rw [← hrs, ← hcs]
    have harg : ((s1 + rs, s2 + cs) : ℤ × ℤ) =
        (s1 + ((1 : ℕ) : ℤ) * rs, s2 + ((1 : ℕ) : ℤ) * cs) := by
      norm_num
    rw [harg]
    exact hr
  · rw [hiff]
    constructor
    · intro hall k hk0 hkd
      exact hall k (by omega) (by omega)
    · intro hall j hj1 hjn
      refine hall j (by omega) ?_
      rw [← hncast]
      exact_mod_cast hjn

theorem path_clear_iff_witness :
    WF initial_board ∧ _is_within_bounds ((0 : ℤ), (3 : ℤ)) = true ∧
    _is_within_bounds ((3 : ℤ), (3 : ℤ)) = true ∧
    ((0 : ℤ), (3 : ℤ)) ≠ ((3 : ℤ), (3 : ℤ)) ∧
    Colinear (0, 3) (3, 3) ∧
    is_path_clear initial_board (0, 3) (3, 3) 8 = some (.ok false) := by
  refine ⟨by decide, by decide, by decide, by decide, by decide, ?_⟩
  obtain ⟨r, hr, hiff⟩ := path_clear_iff initial_board (0, 3) (3, 3)
    (by decide) (by decide) (by decide) (by decide) (by decide)
  have hrf : r = false := by
    cases r with
    | false => rfl
    | true =>
      exfalso
      have h1 := (hiff.mp rfl) 1 (by decide) (by decide)
      exact absurd h1 (by decide)
  rw [hrf] at hr
  exact hr
